import Mathlib

/-!
Shallow embedding of the axon traffic validation engine
(`axon/traffic/*.py`, `axon/common/*.py`) and proofs about it.

Python strings are modelled as lists of characters (`Str`), Python ints as
`Int` or `Nat`, dictionaries as association lists in insertion order, and
raised exceptions as `Except PyErr` / `Option` results.
-/

namespace Axon

/-- Python strings, modelled as lists of characters. -/
abbrev Str := List Char

/-- Python exceptions that the modelled code can raise. -/
inductive PyErr where
  | keyError
  | valueError
  | typeError
  | attributeError
  deriving DecidableEq

/-- Python `s.split(sep)` for a one-character separator: splits at every
occurrence of the separator, keeping empty fragments; the empty string
splits to a single empty fragment. -/
def splitSep (sep : Char) : Str → List Str
  | [] => [[]]
  | c :: rest =>
    match splitSep sep rest with
    | [] => [[c]]
    | h :: t => if c = sep then [] :: h :: t else (c :: h) :: t

/-- Python `sep.join(fragments)`. -/
def joinSep (sep : Char) : List Str → Str
  | [] => []
  | [x] => x
  | x :: y :: t => x ++ sep :: joinSep sep (y :: t)

theorem splitSep_ne_nil (sep : Char) (s : Str) : splitSep sep s ≠ [] := by
  cases s with
  | nil => simp [splitSep]
  | cons c rest =>
    simp only [splitSep]
    cases splitSep sep rest with
    | nil => simp
    | cons h t =>
      by_cases hc : c = sep <;> simp [hc]

theorem splitSep_of_not_mem (sep : Char) (s : Str) (h : sep ∉ s) :
    splitSep sep s = [s] := by
  induction s with
  | nil => rfl
  | cons c rest ih =>
    have hc : c ≠ sep := fun hEq => h (hEq ▸ List.mem_cons_self c rest)
    have hr : sep ∉ rest := fun hm => h (List.mem_cons_of_mem c hm)
    simp [splitSep, ih hr, hc]

theorem splitSep_append (sep : Char) (x rest : Str) (hx : sep ∉ x) :
    splitSep sep (x ++ sep :: rest) = x :: splitSep sep rest := by
  induction x with
  | nil =>
    simp only [List.nil_append, splitSep]
    cases hsp : splitSep sep rest with
    | nil => exact absurd hsp (splitSep_ne_nil sep rest)
    | cons h t => simp
  | cons c x' ih =>
    have hc : c ≠ sep := fun hEq => hx (hEq ▸ List.mem_cons_self c x')
    have hx' : sep ∉ x' := fun hm => hx (List.mem_cons_of_mem c hm)
    simp only [List.cons_append, splitSep, List.append_eq]
    rw [ih hx']
    simp [hc]

theorem splitSep_joinSep (sep : Char) :
    ∀ xs : List Str, xs ≠ [] → (∀ x ∈ xs, sep ∉ x) →
      splitSep sep (joinSep sep xs) = xs
  | [], h, _ => absurd rfl h
  | [x], _, hfree => by
    simp [joinSep, splitSep_of_not_mem sep x (hfree x (List.mem_singleton.mpr rfl))]
  | x :: y :: t, _, hfree => by
    have hx : sep ∉ x := hfree x (List.mem_cons_self x (y :: t))
    have htail : ∀ z ∈ (y :: t), sep ∉ z := fun z hz =>
      hfree z (List.mem_cons_of_mem x hz)
    simp only [joinSep, splitSep_append sep x _ hx]
    rw [splitSep_joinSep sep (y :: t) (by simp) htail]

theorem joinSep_inj (sep : Char) (xs ys : List Str)
    (hxs : xs ≠ []) (hys : ys ≠ [])
    (hfx : ∀ x ∈ xs, sep ∉ x) (hfy : ∀ y ∈ ys, sep ∉ y)
    (h : joinSep sep xs = joinSep sep ys) : xs = ys := by
  have := congrArg (splitSep sep) h
  rwa [splitSep_joinSep sep xs hxs hfx, splitSep_joinSep sep ys hys hfy] at this

/-- Python `bool ==` between two one-bit flags; also used for `bool(x) == bool(y)`. -/
def pyBoolEq (a b : Bool) : Bool := a == b

/-!
## `TCPClient.is_traffic_successful` (axon/traffic/clients/clients.py)

```python
def is_traffic_successful(self, success):
    if not bool(self._connected):
        result = bool(self._connected) == bool(success)
    else:
        # change it later, when action accepts more values
        result = bool(self._action) == bool(success)
    return result
```

`self._connected` is the rule's connected flag, `self._action` its
allowed/action flag (0 = reject, 1 = allow), both modelled after `bool()`
coercion as `Bool`; `success` is the raw transport result. -/
def is_traffic_successful (connected action success : Bool) : Bool :=
  if ¬ connected then pyBoolEq connected success
  else pyBoolEq action success

/-- C1: the recorded outcome flag: if `connected` is false it is success iff
the raw transport result `S` is a failure; otherwise it is success iff `S`
equals the rule's allowed/action flag. -/
theorem C1_outcome_classification (connected action S : Bool) :
    is_traffic_successful connected action S =
      (if connected then S == action else S == false) := by
  cases connected <;> cases action <;> cases S <;> rfl

/-!
## Rule objects (axon/traffic/traffic_objects.py)

`TrafficServer.__eq__` compares `(endpoint, port, protocol)`;
`TrafficRule.__eq__` compares `(source, destination, port, protocol,
allowed)`.  Both classes define `__hash__` as `hash(self.__str__())`: the
only input to Python's hash is the `__str__` text, so the hash separates
exactly what that text separates (up to hash collisions).  We therefore
record the hash input string (`hashKey`) for each object. -/

/-- Python `str(b)` of a bool: "True" / "False". -/
def boolStr (b : Bool) : Str := if b then ("True".toList) else ("False".toList)

structure TrafficServer where
  id : Nat
  endpoint : Str
  port : Nat
  protocol : Str
  enabled : Bool
  deriving DecidableEq

/-- `TrafficServer.__eq__`. -/
def TrafficServer.pyEq (a b : TrafficServer) : Bool :=
  a.endpoint == b.endpoint && a.port == b.port && a.protocol == b.protocol

/-- `TrafficServer.__str__`:
`"TrafficServer(endpoint=%s, port=%s, protocol=%s, enabled=%s)"`. -/
def TrafficServer.pyStr (s : TrafficServer) : Str :=
  ("TrafficServer(endpoint=".toList) ++ s.endpoint ++
    (", port=".toList) ++ (toString s.port).toList ++
    (", protocol=".toList) ++ s.protocol ++
    (", enabled=".toList) ++ boolStr s.enabled ++ (")".toList)

/-- The string `TrafficServer.__hash__` feeds to `hash`. -/
def TrafficServer.hashKey (s : TrafficServer) : Str := s.pyStr

structure TrafficRule where
  id : Str
  source : Str
  destination : Str
  port : Nat
  protocol : Str
  allowed : Bool
  enabled : Bool
  request_count : Nat
  deriving DecidableEq

/-- `TrafficRule.__eq__`. -/
def TrafficRule.pyEq (a b : TrafficRule) : Bool :=
  a.source == b.source && a.destination == b.destination &&
    a.port == b.port && a.protocol == b.protocol && a.allowed == b.allowed

/-- `TrafficRule.__str__`:
`"TrafficRule(source=%s, destination=%s, port=%s, protocol=%s, allowed=%s)"`. -/
def TrafficRule.pyStr (r : TrafficRule) : Str :=
  ("TrafficRule(source=".toList) ++ r.source ++
    (", destination=".toList) ++ r.destination ++
    (", port=".toList) ++ (toString r.port).toList ++
    (", protocol=".toList) ++ r.protocol ++
    (", allowed=".toList) ++ boolStr r.allowed ++ (")".toList)

/-- The string `TrafficRule.__hash__` feeds to `hash`. -/
def TrafficRule.hashKey (r : TrafficRule) : Str := r.pyStr

/-- A server rule that is enabled. -/
def srvA : TrafficServer := ⟨1, ("10.0.0.1".toList), 80, ("TCP".toList), true⟩

/-- The same (endpoint, port, protocol) with a different id and `enabled = False`. -/
def srvB : TrafficServer := ⟨2, ("10.0.0.1".toList), 80, ("TCP".toList), false⟩

/-- Another copy of `srvA`'s identity triple with a fresh id, `enabled = True`. -/
def srvC : TrafficServer := ⟨3, ("10.0.0.1".toList), 80, ("TCP".toList), true⟩

def ruleA : TrafficRule :=
  ⟨("ida".toList), ("1.1.1.1".toList), ("2.2.2.2".toList), 80, ("TCP".toList),
    true, true, 1⟩

def ruleB : TrafficRule :=
  ⟨("idb".toList), ("1.1.1.1".toList), ("2.2.2.2".toList), 80, ("TCP".toList),
    true, false, 7⟩

/-- C7 counterexample: `srvA` and `srvB` agree on (endpoint, port, protocol),
so `__eq__` holds, yet their `__str__` texts — the sole inputs of
`__hash__` — differ because `__str__` includes `enabled`.  Equal ServerRules
are therefore not hashed from equal inputs. -/
theorem C7_counterexample :
    TrafficServer.pyEq srvA srvB = true ∧
      TrafficServer.hashKey srvA ≠ TrafficServer.hashKey srvB := by
  constructor
  · rfl
  · decide

/-- C7 (amended): server equality is exactly the (endpoint, port, protocol)
triple and client-rule equality exactly the five-tuple, with `id` (and
`request_count`, `enabled` for client rules) playing no role; equal client
rules have equal hash inputs; equal server rules are only guaranteed equal
hash inputs when their `enabled` flags also agree, because
`TrafficServer.__str__` — the input of `__hash__` — includes `enabled`. -/
theorem C7_rule_identity_amended (a b : TrafficServer) (c d : TrafficRule) :
    (a.pyEq b = true ↔
      a.endpoint = b.endpoint ∧ a.port = b.port ∧ a.protocol = b.protocol) ∧
    (a.pyEq b = true → a.enabled = b.enabled → a.hashKey = b.hashKey) ∧
    (c.pyEq d = true ↔
      c.source = d.source ∧ c.destination = d.destination ∧ c.port = d.port ∧
        c.protocol = d.protocol ∧ c.allowed = d.allowed) ∧
    (c.pyEq d = true → c.hashKey = d.hashKey) := by
  refine ⟨?_, ?_, ?_, ?_⟩
  · simp [TrafficServer.pyEq, Bool.and_eq_true, beq_iff_eq, and_assoc]
  · intro h he
    have h' := h
    simp only [TrafficServer.pyEq, Bool.and_eq_true, beq_iff_eq] at h'
    obtain ⟨⟨h1, h2⟩, h3⟩ := h'
    simp [TrafficServer.hashKey, TrafficServer.pyStr, h1, h2, h3, he]
  · simp [TrafficRule.pyEq, Bool.and_eq_true, beq_iff_eq, and_assoc]
  · intro h
    simp only [TrafficRule.pyEq, Bool.and_eq_true, beq_iff_eq] at h
    obtain ⟨⟨⟨⟨h1, h2⟩, h3⟩, h4⟩, h5⟩ := h
    simp [TrafficRule.hashKey, TrafficRule.pyStr, h1, h2, h3, h4, h5]

/-- Witness for C7: concrete pairs on which the hypotheses of the amended
identity statement hold and its conclusions evaluate. -/
theorem C7_witness :
    TrafficServer.pyEq srvA srvC = true ∧ srvA.enabled = srvC.enabled ∧
      TrafficServer.hashKey srvA = TrafficServer.hashKey srvC ∧
      TrafficRule.pyEq ruleA ruleB = true ∧
      TrafficRule.hashKey ruleA = TrafficRule.hashKey ruleB := by
  have h := C7_rule_identity_amended srvA srvC ruleA ruleB
  exact ⟨by decide, rfl, h.2.1 (by decide) rfl, by decide, h.2.2.2 (by decide)⟩

/-!
## `TrafficRuleCollection` (axon/traffic/traffic_objects.py)

The collection keeps a dict `_rules_map` (rule -> 1) and a deque `_rules`.

```python
def __add_rule(self, rule):
    if rule not in self._rules_map:
        self._rules.append(rule)
        self._rules_map[rule] = 1

def __delete_rule(self, rule):
    try:
        rule = self._rules_map[rule]
        self._rules.remove(rule)
    except KeyError:
        self.log.error(...)
        raise
```

Note `self._rules_map[rule]` is the stored *value* `1`, which the code then
passes to `deque.remove`.  The deque holds `TrafficRule` objects, and
`TrafficRule.__eq__` / `int.__eq__` never equate a rule with `1`, so the
comparison Python's `remove` performs is heterogeneous; we model the stored
values and the removal argument with a small Python-value union. -/

/-- A Python value that can appear in the collection: an int (the dict's
stored value `1`) or a `TrafficRule`. -/
inductive PyVal where
  | vint : Int → PyVal
  | vrule : TrafficRule → PyVal
  deriving DecidableEq

/-- Python `==` on those values: rules compare by `TrafficRule.__eq__`,
ints by value, and an int never equals a rule. -/
def PyVal.pyEq : PyVal → PyVal → Bool
  | .vint a, .vint b => a == b
  | .vrule a, .vrule b => a.pyEq b
  | _, _ => false

structure RuleCollection where
  /-- `_rules_map`: dict from rule to the stored value, in insertion order. -/
  rules_map : List (TrafficRule × PyVal)
  /-- `_rules`: the deque, in order. -/
  rules : List TrafficRule
  deriving DecidableEq

/-- Dict lookup keyed by `TrafficRule.__eq__` (consistent with its
`__hash__`, which only depends on the compared fields). -/
def mapFind (m : List (TrafficRule × PyVal)) (r : TrafficRule) : Option PyVal :=
  match m with
  | [] => none
  | (k, v) :: t => if k.pyEq r then some v else mapFind t r

/-- `deque.remove(value)`: drop the first element `==`-equal to `value`,
`ValueError` when none is. -/
def dequeRemove (l : List TrafficRule) (v : PyVal) : Except PyErr (List TrafficRule) :=
  match l with
  | [] => .error .valueError
  | x :: t =>
    if (PyVal.vrule x).pyEq v then .ok t
    else (dequeRemove t v).map (fun t2 => x :: t2)

def RuleCollection.add_rule (st : RuleCollection) (rule : TrafficRule) :
    RuleCollection :=
  if (mapFind st.rules_map rule).isSome then st
  else ⟨st.rules_map ++ [(rule, PyVal.vint 1)], st.rules ++ [rule]⟩

/-- `delete_rule`: looks the rule up in `_rules_map` (KeyError when absent,
logged and re-raised) and calls `self._rules.remove(...)` on the *looked-up
value*. -/
def RuleCollection.delete_rule (st : RuleCollection) (rule : TrafficRule) :
    Except PyErr RuleCollection :=
  match mapFind st.rules_map rule with
  | none => .error .keyError
  | some v =>
    match dequeRemove st.rules v with
    | .error e => .error e
    | .ok l => .ok ⟨st.rules_map, l⟩

def RuleCollection.get_rule_count (st : RuleCollection) : Nat :=
  st.rules_map.length

def emptyCollection : RuleCollection := ⟨[], []⟩

/-- C4: `delete_rule` on a collection that does contain the rule.  The map
lookup returns the stored value `1`, so `deque.remove(1)` finds nothing
rule-equal to `1` and raises `ValueError`; the rule is not removed and the
count stays `1` (and `_rules_map` is never cleaned up on this path), while
absence is indeed signalled by `KeyError`. -/
theorem C4_delete_rule_fails :
    (RuleCollection.delete_rule (RuleCollection.add_rule emptyCollection ruleA)
        ruleA = Except.error PyErr.valueError) ∧
      RuleCollection.get_rule_count
        (RuleCollection.add_rule emptyCollection ruleA) = 1 ∧
      RuleCollection.delete_rule emptyCollection ruleA =
        Except.error PyErr.keyError := by
  refine ⟨rfl, rfl, rfl⟩

/-!
## `round_robin_rule_generator` (axon/traffic/traffic_objects.py)

```python
while self._rules_map:
    try:
        with self._mutex:
            item = self._rules[0]
            yield item
    except IndexError: ...
    finally:
        with self._mutex:
            if item in self._rules_map:
                self._rules.rotate(-1)
```

With no concurrent mutation, `_rules_map` is non-empty exactly when the
deque is, every yielded item stays in the map, and each step yields the
deque's head and then rotates the head to the back (`deque.rotate(-1)`).
`round_robin_yields l n` is the list of the first `n` yields starting from
deque contents `l`; the generator terminates at once when the collection is
empty. -/
def round_robin_yields : List TrafficRule → Nat → List TrafficRule
  | [], _ => []
  | _ :: _, 0 => []
  | x :: xs, Nat.succ n => x :: round_robin_yields (xs ++ [x]) n

theorem round_robin_yields_zero (l : List TrafficRule) :
    round_robin_yields l 0 = [] := by
  cases l <;> rfl

theorem round_robin_yields_nil (k : Nat) :
    round_robin_yields [] k = [] := by
  cases k <;> rfl

/-- Yielding `front.length + m` items from `front ++ back` produces `front`
followed by the yields of the rotated deque `back ++ front`. -/
theorem round_robin_shift (front back : List TrafficRule) (m : Nat) :
    round_robin_yields (front ++ back) (front.length + m) =
      front ++ round_robin_yields (back ++ front) m := by
  induction front generalizing back with
  | nil => simp [round_robin_yields]
  | cons x f ih =>
    have : (x :: f).length + m = (f.length + m) + 1 := by
      simp [List.length_cons]; omega
    rw [this]
    simp only [List.cons_append, round_robin_yields, List.append_eq]
    rw [List.append_assoc f back [x], ih (back ++ [x])]
    simp

/-- One full cycle of the deque reproduces the deque itself. -/
theorem round_robin_cycle (l : List TrafficRule) (m : Nat) :
    round_robin_yields l (l.length + m) = l ++ round_robin_yields l m := by
  have h := round_robin_shift l [] m
  simpa using h

/-- C6: round-robin fairness.  With no concurrent mutation, the first
`N * k` yields of the generator over a duplicate-free collection of `N`
rules contain each member exactly `k` times, and from an empty collection
the generator terminates immediately, yielding nothing. -/
theorem C6_round_robin_fairness (l : List TrafficRule) (r : TrafficRule)
    (k : Nat) (hnd : l.Nodup) (hr : r ∈ l) :
    (round_robin_yields l (l.length * k)).count r = k ∧
      round_robin_yields [] k = [] := by
  refine ⟨?_, round_robin_yields_nil k⟩
  induction k with
  | zero => simp [round_robin_yields_zero]
  | succ n ih =>
    have : l.length * (n + 1) = l.length + l.length * n := by ring
    rw [this, round_robin_cycle, List.count_append, ih]
    rw [List.count_eq_one_of_mem hnd hr]
    omega

/-- A rule distinct from `ruleA` (different destination port). -/
def ruleC : TrafficRule :=
  ⟨("idc".toList), ("1.1.1.1".toList), ("2.2.2.2".toList), 443, ("TCP".toList),
    true, true, 1⟩

/-- Witness for C6: a concrete two-rule collection cycled twice. -/
theorem C6_witness :
    ([ruleA, ruleC].Nodup ∧ ruleA ∈ [ruleA, ruleC]) ∧
      (round_robin_yields [ruleA, ruleC]
        ([ruleA, ruleC].length * 2)).count ruleA = 2 := by
  have h := C6_round_robin_fairness [ruleA, ruleC] ruleA 2
    (by decide) (by decide)
  exact ⟨⟨by decide, by decide⟩, h.1⟩

/-!
## `Counter` and `ExchangeReporter.report` (axon/common/metric_cache.py)

```python
class Counter:
    def inc(self, val=1): self._count += val
    def count(self): return self._count
    def dec(self, val=1): self.inc(-val)

class ExchangeReporter(Reporter):
    def report(self, cache):
        metrics = cache.dump_metrics()
        count_dict = {}
        for key in metrics.keys():
            counter = metrics[key]
            count = counter.count()
            if count == 0:
                continue
            count_dict.update({key: count})
            counter.dec(count)
        ...
```

`drain_counter c incs` models one iteration of that loop for one counter:
the loop reads `count`, and before the `dec(count)` lands, further `inc`
calls (from traffic clients) may hit the same counter; `incs` lists those
interleaved increments.  The result is the reported value (0 when nothing
was drained) and the counter's state after the `dec`. -/

structure Counter where
  count : Int
  deriving DecidableEq

def Counter.inc (c : Counter) (v : Int) : Counter := ⟨c.count + v⟩

def Counter.dec (c : Counter) (v : Int) : Counter := c.inc (-v)

def applyIncs (c : Counter) (incs : List Int) : Counter :=
  incs.foldl Counter.inc c

def drain_counter (c : Counter) (incs : List Int) : Int × Counter :=
  let observed := c.count
  let c2 := applyIncs c incs
  if observed == 0 then (0, c2) else (observed, c2.dec observed)

theorem applyIncs_count (c : Counter) (incs : List Int) :
    (applyIncs c incs).count = c.count + incs.sum := by
  induction incs generalizing c with
  | nil => simp [applyIncs]
  | cons x t ih =>
    simp only [applyIncs, List.foldl_cons] at ih ⊢
    rw [ih (c.inc x)]
    simp [Counter.inc, List.sum_cons]
    ring

/-- C5: when the observed value `V` of a counter is non-zero, `report`
records exactly `V` and decrements by `V` rather than clearing, so after
the drain the counter holds its pre-`dec` value minus `V`; increments that
land between the read and the `dec` survive (the remainder is exactly their
sum), and drained value plus remainder account for everything exactly once. -/
theorem C5_drain_decrements_by_value (c : Counter) (incs : List Int)
    (h : c.count ≠ 0) :
    (drain_counter c incs).1 = c.count ∧
      ((drain_counter c incs).2).count =
        (applyIncs c incs).count - (drain_counter c incs).1 ∧
      ((drain_counter c incs).2).count = incs.sum ∧
      (drain_counter c incs).1 + ((drain_counter c incs).2).count =
        (applyIncs c incs).count := by
  have hb : (c.count == 0) = false := by
    simpa [beq_iff_eq] using h
  simp only [drain_counter, hb, if_false, Bool.false_eq_true]
  refine ⟨trivial, ?_, ?_, ?_⟩
  · simp [Counter.dec, Counter.inc]
    try ring
  · simp [Counter.dec, Counter.inc, applyIncs_count]
    try ring
  · simp [Counter.dec, Counter.inc]
    try ring

/-- Witness for C5: a counter at 5 drained while increments 2 and 3 arrive. -/
theorem C5_witness :
    ((⟨5⟩ : Counter).count ≠ 0) ∧
      (drain_counter (⟨5⟩ : Counter) [2, 3]).1 = 5 ∧
      ((drain_counter (⟨5⟩ : Counter) [2, 3]).2).count = 5 := by
  have h := C5_drain_decrements_by_value (⟨5⟩ : Counter) [2, 3] (by decide)
  refine ⟨by decide, ?_, ?_⟩
  · rw [h.1]
  · rw [h.2.2.1]
    decide

/-!
## `TrafficRecord` metrics (axon/traffic/traffic_objects.py)

```python
@classmethod
def to_metric(cls, source, destination, port, protocol, connected, success):
    metric = "{}:{}:{}:{}:{}".format(
        source, destination, port, protocol, connected)
    return ("%s:%s" % (metric, 'success') if success else
            "%s:%s" % (metric, 'failure'))

@classmethod
def from_metric(cls, metric):
    (source, destination, port,
     protocol, connected, result) = metric.split(":")
    return cls(uuid.uuid4().hex, source, destination, port,
               protocol, connected=(connected == 'True'))

@classmethod
def is_success(cls, metric):
    return "success" in metric
```

The record's freshly generated uuid id and wall-clock `created` field are
outside the embedding; `to_metric`'s inputs are taken in their `str()`
forms (Python's `format` stringifies them).  Unpacking the split into six
names raises `ValueError` unless the split has exactly six fragments,
modelled by `Option`. -/

structure TrafficRecord where
  source : Str
  destination : Str
  port : Str
  protocol : Str
  success_count : Int
  failure_count : Int
  connected : Bool
  deriving DecidableEq

def to_metric (source destination port protocol : Str)
    (connected success : Bool) : Str :=
  joinSep ':' [source, destination, port, protocol, boolStr connected,
    if success then ("success".toList) else ("failure".toList)]

def from_metric (metric : Str) : Option TrafficRecord :=
  match splitSep ':' metric with
  | [source, destination, port, protocol, connected, _result] =>
    some ⟨source, destination, port, protocol, 0, 0,
      connected == ("True".toList)⟩
  | _ => none

theorem boolStr_eq_True (c : Bool) : (boolStr c == ("True".toList)) = c := by
  cases c <;> decide

/-- C8 counterexample: an IPv6-style source containing colons.  `to_metric`
embeds it verbatim, `from_metric` splits on every colon, gets more than six
fragments, and the tuple unpacking raises `ValueError` instead of returning
a record whose fields equal the inputs. -/
theorem C8_counterexample :
    from_metric (to_metric ("fd00::1".toList) ("2.2.2.2".toList)
      ("80".toList) ("TCP".toList) true true) = none := by
  decide

/-- Round-trip of the metric encoding for colon-free fields (shared by the
metric and subscriber developments below). -/
theorem metric_roundtrip_aux (s d p proto : Str) (c success : Bool)
    (hs : (':' ∈ s) → False) (hd : (':' ∈ d) → False)
    (hp : (':' ∈ p) → False) (hpr : (':' ∈ proto) → False) :
    from_metric (to_metric s d p proto c success) =
      some ⟨s, d, p, proto, 0, 0, c⟩ := by
  have hsplit : splitSep ':' (to_metric s d p proto c success) =
      [s, d, p, proto, boolStr c,
        if success then ("success".toList) else ("failure".toList)] := by
    unfold to_metric
    apply splitSep_joinSep
    · simp
    · intro x hx
      simp only [List.mem_cons, List.not_mem_nil, or_false] at hx
      rcases hx with rfl | rfl | rfl | rfl | rfl | rfl
      · exact hs
      · exact hd
      · exact hp
      · exact hpr
      · cases c <;> decide
      · cases success <;> decide
  unfold from_metric
  rw [hsplit]
  show some (⟨s, d, p, proto, 0, 0, boolStr c == ("True".toList)⟩ :
    TrafficRecord) = _
  rw [boolStr_eq_True]

/-- C8 (amended): the MetricKey string encoding round-trips — the record
returned by `from_metric (to_metric ...)` carries exactly the input source,
destination, port, protocol and connected flag — provided none of the four
textual fields contains a colon. -/
theorem C8_metric_roundtrip_amended (s d p proto : Str) (c success : Bool)
    (hs : (':' ∈ s) → False) (hd : (':' ∈ d) → False)
    (hp : (':' ∈ p) → False) (hpr : (':' ∈ proto) → False) :
    from_metric (to_metric s d p proto c success) =
      some ⟨s, d, p, proto, 0, 0, c⟩ :=
  metric_roundtrip_aux s d p proto c success hs hd hp hpr

/-- Witness for C8: a concrete colon-free IPv4 metric round-trips. -/
theorem C8_witness :
    ((':' ∈ ("1.1.1.1".toList)) → False) ∧
      ((':' ∈ ("2.2.2.2".toList)) → False) ∧
      ((':' ∈ ("80".toList)) → False) ∧
      ((':' ∈ ("TCP".toList)) → False) ∧
      from_metric (to_metric ("1.1.1.1".toList) ("2.2.2.2".toList)
          ("80".toList) ("TCP".toList) false true) =
        some ⟨("1.1.1.1".toList), ("2.2.2.2".toList), ("80".toList),
          ("TCP".toList), 0, 0, false⟩ := by
  refine ⟨by decide, by decide, by decide, by decide, ?_⟩
  exact C8_metric_roundtrip_amended ("1.1.1.1".toList) ("2.2.2.2".toList)
    ("80".toList) ("TCP".toList) false true
    (by decide) (by decide) (by decide) (by decide)

/-!
## `TrafficServerWorker` (axon/traffic/servers/worker.py)

```python
def add_servers(self, servers):
    for server in servers:
        if server not in self._servers:
            self._servers.append(server)
            ...
            self._running_servers[server] = server_instance.result()

def delete_all_servers(self):
    for server in self._servers:
        self._stop_server(server)
        self._servers.remove(server)

def _stop_server(self, server):
    server_instance = self._running_servers[server]
    server_instance.close()
    ...
    del self._running_servers[server]
```

The asyncio server instances are opaque handles, modelled as `Nat` tokens.
CPython's `for server in self._servers` walks the *live* list by an
internal index, so removals inside the body shift later elements under the
iterator; `delete_all_loop` models exactly that index-based traversal (the
`fuel` argument only bounds the recursion and exceeds the possible number
of iterations, which is at most the initial list length). -/

structure ServerWorker where
  servers : List TrafficServer
  running : List (TrafficServer × Nat)
  deriving DecidableEq

/-- Dict lookup in `_running_servers`, keyed by `TrafficServer.__eq__`. -/
def srvFind (m : List (TrafficServer × Nat)) (s : TrafficServer) : Option Nat :=
  match m with
  | [] => none
  | (k, v) :: t => if k.pyEq s then some v else srvFind t s

/-- `del self._running_servers[server]` after a successful lookup. -/
def srvDel (m : List (TrafficServer × Nat)) (s : TrafficServer) :
    List (TrafficServer × Nat) :=
  match m with
  | [] => []
  | (k, v) :: t => if k.pyEq s then t else (k, v) :: srvDel t s

/-- `list.remove(x)`: drop the first `==`-equal element, else `ValueError`. -/
def listRemoveSrv (l : List TrafficServer) (s : TrafficServer) :
    Except PyErr (List TrafficServer) :=
  match l with
  | [] => .error .valueError
  | x :: t =>
    if x.pyEq s then .ok t
    else (listRemoveSrv t s).map (fun t2 => x :: t2)

def ServerWorker.has_server (w : ServerWorker) (s : TrafficServer) : Bool :=
  w.servers.any (fun x => x.pyEq s)

def ServerWorker.get_server_count (w : ServerWorker) : Nat :=
  w.servers.length

def ServerWorker.add_servers (w : ServerWorker)
    (servers : List TrafficServer) : ServerWorker :=
  servers.foldl
    (fun acc s =>
      if acc.has_server s then acc
      else ⟨acc.servers ++ [s], acc.running ++ [(s, acc.running.length + 1)]⟩)
    w

def ServerWorker.stop_server (w : ServerWorker) (s : TrafficServer) :
    Except PyErr ServerWorker :=
  match srvFind w.running s with
  | none => .error .keyError
  | some _ => .ok ⟨w.servers, srvDel w.running s⟩

/-- Index-based traversal of `for server in self._servers` with the body
`self._stop_server(server); self._servers.remove(server)`; stops when the
index reaches the current (shrunken) length. -/
def delete_all_loop (fuel : Nat) (w : ServerWorker) (i : Nat) :
    Except PyErr ServerWorker :=
  match fuel with
  | 0 => .ok w
  | fuel2 + 1 =>
    if h : i < w.servers.length then
      let server := w.servers.get ⟨i, h⟩
      match w.stop_server server with
      | .error e => .error e
      | .ok w2 =>
        match listRemoveSrv w2.servers server with
        | .error e => .error e
        | .ok l => delete_all_loop fuel2 ⟨l, w2.running⟩ (i + 1)
    else .ok w

def ServerWorker.delete_all_servers (w : ServerWorker) :
    Except PyErr ServerWorker :=
  delete_all_loop (w.servers.length + 1) w 0

/-- A server unrelated to `srvA` (different endpoint and port). -/
def srvD : TrafficServer := ⟨4, ("10.0.0.2".toList), 81, ("TCP".toList), true⟩

/-- The worker state after hosting `srvA` and `srvD` via `add_servers`. -/
def workerTwo : ServerWorker := ServerWorker.add_servers ⟨[], []⟩ [srvA, srvD]

/-- C10: `delete_all_servers` removes elements from `self._servers` while
iterating over it, so the iterator skips every element that slides into a
just-visited slot.  Hosting two servers and calling `delete_all_servers`
leaves one of them: the count is 1, not 0, and `has_server` still holds for
the survivor. -/
theorem C10_delete_all_servers_incomplete :
    workerTwo.get_server_count = 2 ∧
      (workerTwo.delete_all_servers).map ServerWorker.get_server_count =
        Except.ok 1 ∧
      (workerTwo.delete_all_servers).map
        (fun w => w.has_server srvD) = Except.ok true ∧
      (workerTwo.delete_all_servers).map
        (fun w => w.has_server srvA) = Except.ok false := by
  refine ⟨rfl, rfl, rfl, rfl⟩

/-!
## `TrafficController` (axon/traffic/controller.py)

Both registries are `MemCache` dictionaries.  Worker contexts are the
dicts `{'uid': ..., 'address': ..., 'process': ...}` built by
`_get_worker_context`; the `process` handle is only touched by
`stop_all_*`, so a context is modelled by its uid and RPC address.  The
uuids and listening addresses of freshly created workers come from a
`fresh` supply list.  RPC calls leave the controller state untouched and
are recorded as events.  `CLIENT_WORKER_COUNT = SERVER_WORKER_COUNT =
min(2, cpu_count() or 1)`, i.e. 2 on any multi-core host.

Registry keys are the Python strings `"%s_%s" % (worker_type, ...)`; the
loop of `_add_rules_to_existing_workers` also performs a lookup with an
`int` (see below), so keys carry their Python type. -/

structure WorkerCtx where
  uid : Str
  address : Nat
  deriving DecidableEq

/-- A Python value used as a `MemCache` key. -/
inductive RegKey where
  | kstr : Str → RegKey
  | kint : Nat → RegKey
  deriving DecidableEq

abbrev Registry := List (RegKey × WorkerCtx)

/-- `MemCache.add`: plain dict assignment (overwrite in place or append). -/
def memAdd (m : Registry) (k : RegKey) (v : WorkerCtx) : Registry :=
  match m with
  | [] => [(k, v)]
  | (k2, v2) :: t => if k2 = k then (k2, v) :: t else (k2, v2) :: memAdd t k v

/-- `MemCache.get` with default `None`. -/
def memGet (m : Registry) (k : RegKey) : Option WorkerCtx :=
  match m with
  | [] => none
  | (k2, v) :: t => if k2 = k then some v else memGet t k

/-- `MemCache.delete` (absent keys are ignored). -/
def memDeleteKey (m : Registry) (k : RegKey) : Registry :=
  match m with
  | [] => []
  | (k2, v) :: t => if k2 = k then t else (k2, v) :: memDeleteKey t k

/-- `MemCache.delete_many`. -/
def memDeleteMany (m : Registry) (ks : List RegKey) : Registry :=
  ks.foldl memDeleteKey m

/-- `MemCache.get_all_keys`. -/
def memKeys (m : Registry) : List RegKey := m.map (fun e => e.1)

/-- Does `s` start with the pattern `pat`? (`str.startswith`). -/
def startsWithL (pat s : Str) : Bool :=
  match pat, s with
  | [], _ => true
  | _ :: _, [] => false
  | c :: pat2, d :: s2 => c == d && startsWithL pat2 s2

/-- `key.startswith(worker_type)`; only string keys are ever stored. -/
def keyStarts (wt : Str) : RegKey → Bool
  | .kstr s => startsWithL wt s
  | .kint _ => false

/-- `"%s_%s" % (worker_type, x)` as a registry key. -/
def tagKey (wt x : Str) : RegKey := .kstr (wt ++ ("_".toList) ++ x)

structure ControllerState where
  rules_registry : Registry
  workers_registry : Registry
  deriving DecidableEq

def emptyController : ControllerState := ⟨[], []⟩

/-- An RPC call sent to a worker (`add_servers`/`add_clients` or
`delete_servers`/`delete_clients`, by worker type). -/
inductive RpcEvent where
  | addCall : Str → Nat → List TrafficRule → RpcEvent
  | deleteCall : Str → Nat → List TrafficRule → RpcEvent
  deriving DecidableEq

def get_all_workers (st : ControllerState) (wt : Str) : List RegKey :=
  (memKeys st.workers_registry).filter (keyStarts wt)

def get_all_rules (st : ControllerState) (wt : Str) : List RegKey :=
  (memKeys st.rules_registry).filter (keyStarts wt)

/-- `int(math.ceil(float(n) / w))`. -/
def ceilDiv (n w : Nat) : Nat := (n + w - 1) / w

/-- `new_rules[start:end]`. -/
def pySlice (l : List TrafficRule) (start stop : Nat) : List TrafficRule :=
  (l.drop start).take (stop - start)

/-- A Python value in the slicing arithmetic of
`_add_rules_to_existing_workers`. -/
inductive PyArith where
  | pint : Nat → PyArith
  | pstr : Str → PyArith
  deriving DecidableEq

/-- Python `int * str` = string repetition. -/
def repeatStr (n : Nat) (s : Str) : Str := (List.replicate n s).flatten

def pyMul : PyArith → PyArith → Except PyErr PyArith
  | .pint a, .pint b => .ok (.pint (a * b))
  | .pint a, .pstr s => .ok (.pstr (repeatStr a s))
  | .pstr s, .pint a => .ok (.pstr (repeatStr a s))
  | .pstr _, .pstr _ => .error .typeError

def pyAdd : PyArith → PyArith → Except PyErr PyArith
  | .pint a, .pint b => .ok (.pint (a + b))
  | .pstr a, .pstr b => .ok (.pstr (a ++ b))
  | _, _ => .error .typeError

/-- Slicing with Python values as bounds: non-int bounds raise `TypeError`. -/
def pySliceP (l : List TrafficRule) : PyArith → PyArith →
    Except PyErr (List TrafficRule)
  | .pint a, .pint b => .ok (pySlice l a b)
  | _, _ => .error .typeError

/-- Registers the rule → worker-context relationship for every distributed
rule (`self._rules_registry.add("%s_%s" % (worker_type, rule.id), context)`). -/
def addRuleEntries (reg : Registry) (wt : Str) (ctx : WorkerCtx)
    (rules : List TrafficRule) : Registry :=
  rules.foldl (fun acc r => memAdd acc (tagKey wt r.id) ctx) reg

/-!
```python
def _add_rules_to_existing_workers(self, new_rules, rules_per_worker,
                                   worker_type="server"):
    for worker, index in enumerate(self._get_all_workers(worker_type)):
        context = self._workers_registry.get(worker)
        start = rules_per_worker * index
        end = start + rules_per_worker
        rules = new_rules[start:end]
        if rules:
            client = RPCClient(context.get('address'))
            ...
```

`enumerate` yields `(position, element)` pairs, so the unpacking binds
`worker` to the int position and `index` to the worker *key string*.
`rules_per_worker * index` is then `int * str` (string repetition) and
`start + rules_per_worker` is `str + int`, which raises `TypeError`. -/
def add_rules_to_existing_loop (wt : Str) (new_rules : List TrafficRule)
    (rpw : Nat) :
    List (Nat × RegKey) → ControllerState → List RpcEvent →
      Except PyErr (ControllerState × List RpcEvent)
  | [], st, ev => .ok (st, ev)
  | (worker, index) :: rest, st, ev => do
    let context := memGet st.workers_registry (RegKey.kint worker)
    let indexVal : PyArith := match index with
      | .kstr s => .pstr s
      | .kint n => .pint n
    let start ← pyMul (.pint rpw) indexVal
    let stop ← pyAdd start (.pint rpw)
    let rules ← pySliceP new_rules start stop
    if rules.isEmpty then
      add_rules_to_existing_loop wt new_rules rpw rest st ev
    else
      match context with
      | none => .error .attributeError
      | some ctx =>
        let ev2 := ev ++ [RpcEvent.addCall wt ctx.address rules]
        let st2 : ControllerState :=
          ⟨addRuleEntries st.rules_registry wt ctx rules, st.workers_registry⟩
        add_rules_to_existing_loop wt new_rules rpw rest st2 ev2

def add_rules_to_existing_workers (st : ControllerState)
    (new_rules : List TrafficRule) (rpw : Nat) (wt : Str) :
    Except PyErr (ControllerState × List RpcEvent) :=
  add_rules_to_existing_loop wt new_rules rpw
    (get_all_workers st wt).enum st []

/-!
```python
def _create_workers_and_add_rules(self, new_rules, workers_to_be_created,
                                  rules_per_worker, worker_type="server"):
    for i in range(workers_to_be_created):
        try:
            context = self._get_worker_context()
            start = rules_per_worker * i
            end = start + rules_per_worker
            rules = new_rules[start:end]
            if not rules:
                break
            ...
            worker = self._create_worker(name, handler)
            context.update({'address': worker.address, 'process': worker})
            key = 'server_%s' % context['uid']
            if worker_type == "server": key = 'server_%s' % context['uid']
            else: key = 'client_%s' % context['uid']
            self._workers_registry.add(key, context)
            client = RPCClient(context.get('address'))
            ... add_servers/add_clients(rules)
            for rule in rules: self._rules_registry.add(key(rule), context)
        except Exception as ex:
            print(ex)
```

Each iteration consumes one fresh (uuid, address) pair; none of the
modelled operations raises, so the per-iteration `try/except` never fires. -/
def create_workers_loop (wt : Str) (new_rules : List TrafficRule) (rpw : Nat) :
    Nat → Nat → List (Str × Nat) → ControllerState → List RpcEvent →
      ControllerState × List RpcEvent
  | _, 0, _, st, ev => (st, ev)
  | i, n + 1, fresh, st, ev =>
    let rules := pySlice new_rules (rpw * i) (rpw * i + rpw)
    if rules.isEmpty then (st, ev)
    else
      match fresh with
      | [] => (st, ev)
      | (uid, addr) :: fresh2 =>
        let ctx : WorkerCtx := ⟨uid, addr⟩
        let st2 : ControllerState :=
          ⟨addRuleEntries st.rules_registry wt ctx rules,
            memAdd st.workers_registry (tagKey wt uid) ctx⟩
        let ev2 := ev ++ [RpcEvent.addCall wt addr rules]
        create_workers_loop wt new_rules rpw (i + 1) n fresh2 st2 ev2

def create_workers_and_add_rules (st : ControllerState)
    (new_rules : List TrafficRule) (workers_to_be_created : Nat) (rpw : Nat)
    (wt : Str) (fresh : List (Str × Nat)) : ControllerState × List RpcEvent :=
  create_workers_loop wt new_rules rpw 0 workers_to_be_created fresh st []

/-- `CLIENT_WORKER_COUNT` / `SERVER_WORKER_COUNT` on a multi-core host. -/
def WORKER_COUNT : Nat := 2

/-!
```python
def start_clients(self, rules):
    existing_rules = self._get_all_rules("client")
    new_rules = [rule for rule in rules if
                 "%s_%s" % ("client", rule.id) not in existing_rules]
    current_workers = len(self._get_all_workers(worker_type="client"))
    workers = CLIENT_WORKER_COUNT
    rules_per_worker = int(math.ceil(float(len(new_rules)) / workers))
    if current_workers and current_workers == workers:
        self._add_rules_to_existing_workers(...)
    else:
        workers_to_be_created = workers - current_workers
        self._create_workers_and_add_rules(...)
```
`start_servers` is the same code with worker type `"server"`. -/
def start_rules (st : ControllerState) (wt : Str) (fresh : List (Str × Nat))
    (rules : List TrafficRule) : Except PyErr (ControllerState × List RpcEvent) :=
  let existing := get_all_rules st wt
  let new_rules := rules.filter (fun r => !(existing.contains (tagKey wt r.id)))
  let current := (get_all_workers st wt).length
  let rpw := ceilDiv new_rules.length WORKER_COUNT
  if current ≠ 0 ∧ current = WORKER_COUNT then
    add_rules_to_existing_workers st new_rules rpw wt
  else
    .ok (create_workers_and_add_rules st new_rules (WORKER_COUNT - current)
      rpw wt fresh)

def start_clients (st : ControllerState) (fresh : List (Str × Nat))
    (rules : List TrafficRule) : Except PyErr (ControllerState × List RpcEvent) :=
  start_rules st ("client".toList) fresh rules

/-- The `defaultdict(list)` from worker uid to its slice of the rules,
appending in rule order. -/
def dmapAppend (m : List (Str × List TrafficRule)) (uid : Str)
    (r : TrafficRule) : List (Str × List TrafficRule) :=
  match m with
  | [] => [(uid, [r])]
  | (u, rs) :: t =>
    if u = uid then (u, rs ++ [r]) :: t else (u, rs) :: dmapAppend t uid r

/-!
```python
def _delete_rule_from_worker(self, rules, worker_type="server"):
    workers_rule_map = defaultdict(list)
    for rule in rules:
        rule_key = "%s_%s" % (worker_type, rule.id)
        rule_owner_context = self._rules_registry.get(rule_key)
        if rule_owner_context:
            workers_rule_map[rule_owner_context['uid']].append(rule)
    for worker, rules in workers_rule_map.items():
        context = self._workers_registry.get(worker)
        client = RPCClient(context.get('address'))
        ... delete_servers/delete_clients(rules)
        rule_keys = ["%s_%s" % (worker_type, rule.id) for rule in rules]
        self._rules_registry.delete_many(rule_keys)
```

The grouping keys are the *bare* uids, but `_workers_registry` stores its
contexts under `"%s_%s" % (worker_type, uid)`; `get` therefore returns
`None` and `context.get('address')` raises `AttributeError`. -/
def delete_rule_loop (wt : Str) :
    List (Str × List TrafficRule) → ControllerState → List RpcEvent →
      Except PyErr (ControllerState × List RpcEvent)
  | [], st, ev => .ok (st, ev)
  | (uid, wrules) :: rest, st, ev =>
    match memGet st.workers_registry (RegKey.kstr uid) with
    | none => .error .attributeError
    | some ctx =>
      let ev2 := ev ++ [RpcEvent.deleteCall wt ctx.address wrules]
      let st2 : ControllerState :=
        ⟨memDeleteMany st.rules_registry (wrules.map (fun r => tagKey wt r.id)),
          st.workers_registry⟩
      delete_rule_loop wt rest st2 ev2

def delete_rule_from_worker (st : ControllerState) (rules : List TrafficRule)
    (wt : Str) : Except PyErr (ControllerState × List RpcEvent) :=
  let wmap := rules.foldl
    (fun acc rule =>
      match memGet st.rules_registry (tagKey wt rule.id) with
      | none => acc
      | some ctx => dmapAppend acc ctx.uid rule)
    ([] : List (Str × List TrafficRule))
  delete_rule_loop wt wmap st []

def stop_clients (st : ControllerState) (rules : List TrafficRule) :
    Except PyErr (ControllerState × List RpcEvent) :=
  delete_rule_from_worker st rules ("client".toList)

/-- The fresh (uuid, address) pairs available to newly created workers. -/
def freshTwo : List (Str × Nat) := [(("w1".toList), 5001), (("w2".toList), 5002)]

/-- C2: starting one client rule on a fresh controller registers the rule
under `client_<rule.id>` and its worker under `client_<uid>`; the following
`stop_clients` groups the rule under the bare uid, fails to find any worker
context under that bare uid, and raises `AttributeError` on
`context.get('address')` before deleting anything — the rule's registry
entry survives, contradicting the claim that it is removed. -/
theorem C2_stop_clients_crashes :
    ((start_clients emptyController freshTwo [ruleA]).map
        (fun p => stop_clients p.1 [ruleA])) =
      Except.ok (Except.error PyErr.attributeError) ∧
    ((start_clients emptyController freshTwo [ruleA]).map
        (fun p =>
          (memGet p.1.rules_registry
            (tagKey ("client".toList) ruleA.id)).isSome)) =
      Except.ok true := by
  refine ⟨rfl, rfl⟩

/-- A third client rule, not yet registered when C3's second start runs. -/
def ruleE : TrafficRule :=
  ⟨("ide".toList), ("3.3.3.3".toList), ("4.4.4.4".toList), 22, ("TCP".toList),
    true, true, 1⟩

/-- C3: two start calls.  The first creates both client workers (so the
live count equals `CLIENT_WORKER_COUNT = 2`).  The second therefore takes
the `_add_rules_to_existing_workers` path, whose loop unpacks
`enumerate(...)` in the wrong order; `start = rules_per_worker * index`
silently becomes string repetition and `end = start + rules_per_worker`
raises `TypeError`, so no slice is distributed, no RPC is sent and no
registry entry is inserted — contradicting the claimed distribution. -/
theorem C3_existing_worker_distribution_crashes :
    ((start_clients emptyController freshTwo [ruleA, ruleC]).map
        (fun p => (get_all_workers p.1 ("client".toList)).length)) =
      Except.ok WORKER_COUNT ∧
    ((start_clients emptyController freshTwo [ruleA, ruleC]).map
        (fun p => start_clients p.1 [] [ruleE])) =
      Except.ok (Except.error PyErr.typeError) := by
  refine ⟨rfl, rfl⟩

/-!
## `SQLRecorder.handle` (axon/common/subscribers.py)

```python
def handle(self, messages):
    traffic_records_map = {}
    for message in messages:
        for metric, value in message.items():
            success = TrafficRecord.is_success(metric)
            record = TrafficRecord.from_metric(metric)
            record = traffic_records_map.get(str(record), record)
            if success:
                record.success_count = value
            else:
                record.failure_count = value
            traffic_records_map[str(record)] = record
    records = list(traffic_records_map.values())
    self._record_store.add_records_batch(records)
```

Messages are the drained `{metric: value}` dicts from the exchange, in
order; the nested loops visit the concatenation of their items, threading
the `str(record)`-keyed dict through every pair.  The rows handed to the
record store are the dict's values in insertion order. -/

/-- Substring test (`pat in s` for Python strings). -/
def containsSub (pat : Str) : Str → Bool
  | [] => startsWithL pat []
  | c :: cs => startsWithL pat (c :: cs) || containsSub pat cs

/-- `TrafficRecord.is_success`: the literal substring test
`"success" in metric`. -/
def is_success (metric : Str) : Bool := containsSub ("success".toList) metric

/-- `TrafficRecord.__str__`:
`"TrafficRecord(%s)" % ",".join([source, destination, port, protocol, str(connected)])`. -/
def TrafficRecord.pyStr (r : TrafficRecord) : Str :=
  ("TrafficRecord(".toList) ++
    joinSep ','
      [r.source, r.destination, r.port, r.protocol, boolStr r.connected] ++
    (")".toList)

abbrev RecMap := List (Str × TrafficRecord)

def recFind (m : RecMap) (k : Str) : Option TrafficRecord :=
  match m with
  | [] => none
  | (k2, v) :: t => if k2 = k then some v else recFind t k

/-- Dict assignment `traffic_records_map[key] = record` (overwrite in
place, else append, preserving insertion order). -/
def recUpd (m : RecMap) (k : Str) (v : TrafficRecord) : RecMap :=
  match m with
  | [] => [(k, v)]
  | (k2, v2) :: t => if k2 = k then (k2, v) :: t else (k2, v2) :: recUpd t k v

/-- One `(metric, value)` item of the nested loop; the `ValueError` of
`from_metric` on a malformed metric propagates out of `handle`. -/
def handleStep (m : RecMap) (pair : Str × Int) : Except PyErr RecMap :=
  let success := is_success pair.1
  match from_metric pair.1 with
  | none => .error .valueError
  | some record0 =>
    let record1 := (recFind m record0.pyStr).getD record0
    let record2 :=
      if success then { record1 with success_count := pair.2 }
      else { record1 with failure_count := pair.2 }
    .ok (recUpd m record2.pyStr record2)

def handlePairs : RecMap → List (Str × Int) → Except PyErr RecMap
  | m, [] => .ok m
  | m, p :: rest =>
    match handleStep m p with
    | .error e => .error e
    | .ok m2 => handlePairs m2 rest

/-- `SQLRecorder.handle`: the nested loops over the batch equal one pass
over the concatenated items; the result is the list of rows passed to
`record_store.add_records_batch`. -/
def handle (messages : List (List (Str × Int))) :
    Except PyErr (List TrafficRecord) :=
  (handlePairs [] messages.flatten).map (fun m => m.map (fun e => e.2))

/-- The (source, destination, port, protocol, connected) tuple of a metric. -/
structure MetricTuple where
  source : Str
  destination : Str
  port : Str
  protocol : Str
  connected : Bool
  deriving DecidableEq

def encMetric (t : MetricTuple) (flag : Bool) : Str :=
  to_metric t.source t.destination t.port t.protocol t.connected flag

/-- The parsed record of a tuple's metrics (counts zeroed). -/
def recOf (t : MetricTuple) : TrafficRecord :=
  ⟨t.source, t.destination, t.port, t.protocol, 0, 0, t.connected⟩

def keyOf (t : MetricTuple) : Str := (recOf t).pyStr

def tup0 : MetricTuple :=
  ⟨("1.1.1.1".toList), ("2.2.2.2".toList), ("80".toList), ("TCP".toList), true⟩

/-- The total drained value carried by a given metric string across the
batch's messages. -/
def totalForMetric (messages : List (List (Str × Int))) (metric : Str) : Int :=
  ((messages.flatten.filter (fun pr => pr.1 == metric)).map
    (fun pr => pr.2)).sum

/-- C9 counterexample: two messages of the same batch each carry the same
success metric with value 1 (two successive drains of the same counter).
The claim demands a merged record with `success_count` equal to the total
2; the code's `record.success_count = value` *assigns* instead of
accumulating, so the merged record reports 1. -/
theorem C9_counterexample :
    handle [[(encMetric tup0 true, 1)], [(encMetric tup0 true, 1)]] =
      Except.ok [⟨("1.1.1.1".toList), ("2.2.2.2".toList), ("80".toList),
        ("TCP".toList), 1, 0, true⟩] ∧
    totalForMetric [[(encMetric tup0 true, 1)], [(encMetric tup0 true, 1)]]
        (encMetric tup0 true) = 2 := by
  refine ⟨rfl, rfl⟩

/-! ### Substring facts used to evaluate `is_success` on well-formed metrics -/

theorem startsWithL_self (s : Str) : startsWithL s s = true := by
  induction s with
  | nil => rfl
  | cons c t ih => simp [startsWithL, ih]

theorem containsSub_append_self (pat x : Str) :
    containsSub pat (x ++ pat) = true := by
  induction x with
  | nil =>
    cases pat with
    | nil => rfl
    | cons c t => simp [containsSub, startsWithL_self]
  | cons c x' ih => simp [containsSub, ih]

theorem startsWithL_append_sep (sep : Char) (pat : Str) (hs : sep ∉ pat) :
    ∀ y rest : Str, startsWithL pat (y ++ sep :: rest) = startsWithL pat y := by
  induction pat with
  | nil => intro y rest; rfl
  | cons p pt ih =>
    intro y rest
    have hp : (p == sep) = false := by
      simp only [beq_eq_false_iff_ne, ne_eq]
      exact fun h => hs (h ▸ List.mem_cons_self p pt)
    have hpt : sep ∉ pt := fun h => hs (List.mem_cons_of_mem p h)
    cases y with
    | nil => simp [startsWithL, hp]
    | cons d y' => simp [startsWithL, ih hpt y' rest]

theorem containsSub_append_sep (sep : Char) (pat : Str) (hne : pat ≠ [])
    (hs : sep ∉ pat) (x rest : Str) :
    containsSub pat (x ++ sep :: rest) =
      (containsSub pat x || containsSub pat rest) := by
  induction x with
  | nil =>
    cases pat with
    | nil => exact absurd rfl hne
    | cons p pt =>
      have hp : (p == sep) = false := by
        simp only [beq_eq_false_iff_ne, ne_eq]
        exact fun h => hs (h ▸ List.mem_cons_self p pt)
      simp [containsSub, startsWithL, hp]
  | cons c x' ih =>
    have h2 := startsWithL_append_sep sep pat hs (c :: x') rest
    simp only [List.cons_append] at h2 ⊢
    simp [containsSub, ih, h2, Bool.or_assoc]

theorem containsSub_joinSep (sep : Char) (pat : Str) (hne : pat ≠ [])
    (hs : sep ∉ pat) :
    ∀ xs : List Str,
      containsSub pat (joinSep sep xs) = xs.any (containsSub pat)
  | [] => by
    cases pat with
    | nil => exact absurd rfl hne
    | cons p pt => rfl
  | [x] => by simp [joinSep]
  | x :: y :: t => by
    simp only [joinSep]
    rw [containsSub_append_sep sep pat hne hs x (joinSep sep (y :: t))]
    rw [containsSub_joinSep sep pat hne hs (y :: t)]
    simp [Bool.or_assoc]

/-- Well-formed metric fields: no colon (so the six-way split is exact), no
comma (so the `TrafficRecord.__str__` map key is unambiguous), and no
embedded "success" (so the substring test reads only the result suffix). -/
abbrev TupleOK (t : MetricTuple) : Prop :=
  ((':' ∈ t.source) → False) ∧ ((':' ∈ t.destination) → False) ∧
  ((':' ∈ t.port) → False) ∧ ((':' ∈ t.protocol) → False) ∧
  ((',' ∈ t.source) → False) ∧ ((',' ∈ t.destination) → False) ∧
  ((',' ∈ t.port) → False) ∧ ((',' ∈ t.protocol) → False) ∧
  containsSub ("success".toList) t.source = false ∧
  containsSub ("success".toList) t.destination = false ∧
  containsSub ("success".toList) t.port = false ∧
  containsSub ("success".toList) t.protocol = false

theorem is_success_encMetric (t : MetricTuple) (flag : Bool)
    (h : TupleOK t) : is_success (encMetric t flag) = flag := by
  obtain ⟨_, _, _, _, _, _, _, _, hs1, hs2, hs3, hs4⟩ := h
  have hTrue : containsSub ("success".toList) (boolStr t.connected) = false := by
    cases t.connected <;> decide
  have hres :
      containsSub ("success".toList)
        (if flag then ("success".toList) else ("failure".toList)) = flag := by
    cases flag <;> decide
  have hs1b : containsSub (['s', 'u', 'c', 'c', 'e', 's', 's']) t.source =
    false := hs1
  have hs2b : containsSub (['s', 'u', 'c', 'c', 'e', 's', 's'])
    t.destination = false := hs2
  have hs3b : containsSub (['s', 'u', 'c', 'c', 'e', 's', 's']) t.port =
    false := hs3
  have hs4b : containsSub (['s', 'u', 'c', 'c', 'e', 's', 's']) t.protocol =
    false := hs4
  have hTrueb : containsSub (['s', 'u', 'c', 'c', 'e', 's', 's'])
    (boolStr t.connected) = false := hTrue
  have hresb : containsSub (['s', 'u', 'c', 'c', 'e', 's', 's'])
      (if flag = true then (['s', 'u', 'c', 'c', 'e', 's', 's'])
       else (['f', 'a', 'i', 'l', 'u', 'r', 'e'])) = flag := hres
  unfold is_success encMetric to_metric
  rw [containsSub_joinSep ':' _ (by decide) (by decide)]
  simp [hs1b, hs2b, hs3b, hs4b, hTrueb, hresb]

theorem from_metric_encMetric (t : MetricTuple) (flag : Bool)
    (h : TupleOK t) : from_metric (encMetric t flag) = some (recOf t) := by
  obtain ⟨h1, h2, h3, h4, _⟩ := h
  exact metric_roundtrip_aux t.source t.destination t.port t.protocol
    t.connected flag h1 h2 h3 h4

theorem boolStr_inj (a b : Bool) (h : boolStr a = boolStr b) : a = b := by
  cases a <;> cases b <;> first | rfl | exact absurd h (by decide)

/-- Two well-formed tuples with the same `str(record)` map key parse to the
same record: the key embeds the five fields comma-separated inside a fixed
frame, and comma-free fragments make that embedding injective. -/
theorem keyOf_inj (t u : MetricTuple) (ht : TupleOK t) (hu : TupleOK u)
    (h : keyOf t = keyOf u) : recOf t = recOf u := by
  obtain ⟨_, _, _, _, hm1, hm2, hm3, hm4, _⟩ := ht
  obtain ⟨_, _, _, _, hn1, hn2, hn3, hn4, _⟩ := hu
  unfold keyOf TrafficRecord.pyStr at h
  have h2 := List.append_cancel_right h
  have h3 := List.append_cancel_left h2
  have h4 := joinSep_inj ','
    [(recOf t).source, (recOf t).destination, (recOf t).port,
      (recOf t).protocol, boolStr (recOf t).connected]
    [(recOf u).source, (recOf u).destination, (recOf u).port,
      (recOf u).protocol, boolStr (recOf u).connected]
    (by simp) (by simp) ?_ ?_ h3
  · injection h4 with e1 h4
    injection h4 with e2 h4
    injection h4 with e3 h4
    injection h4 with e4 h4
    injection h4 with e5 _
    have e5b := boolStr_inj _ _ e5
    unfold recOf at e1 e2 e3 e4 e5b ⊢
    dsimp only at e1 e2 e3 e4 e5b
    rw [e1, e2, e3, e4, e5b]
  · intro x hx
    simp only [List.mem_cons, List.not_mem_nil, or_false] at hx
    rcases hx with rfl | rfl | rfl | rfl | rfl
    · exact hm1
    · exact hm2
    · exact hm3
    · exact hm4
    · cases (recOf t).connected <;> decide
  · intro x hx
    simp only [List.mem_cons, List.not_mem_nil, or_false] at hx
    rcases hx with rfl | rfl | rfl | rfl | rfl
    · exact hn1
    · exact hn2
    · exact hn3
    · exact hn4
    · cases (recOf u).connected <;> decide

/-! ### The record map of `handle`: keys, lookups and the well-formedness
invariant that every entry sits under its own `str(record)` key -/

def recKeys (m : RecMap) : List Str := m.map (fun e => e.1)

def WFmap (m : RecMap) : Prop := ∀ e ∈ m, e.1 = (e.2).pyStr

theorem recFind_mem (m : RecMap) (k : Str) (r : TrafficRecord)
    (h : recFind m k = some r) : (k, r) ∈ m := by
  induction m with
  | nil => exact absurd h (by simp [recFind])
  | cons e t ih =>
    obtain ⟨k2, v⟩ := e
    by_cases hk : k2 = k
    · simp only [recFind, hk, if_pos rfl] at h
      injection h with h
      subst hk h
      exact List.mem_cons_self _ _
    · simp only [recFind, hk, if_false, if_neg hk] at h
      exact List.mem_cons_of_mem _ (ih h)

theorem recFind_upd_self (m : RecMap) (k : Str) (v : TrafficRecord) :
    recFind (recUpd m k v) k = some v := by
  induction m with
  | nil => simp [recUpd, recFind]
  | cons e t ih =>
    obtain ⟨k2, v2⟩ := e
    by_cases hk : k2 = k
    · simp [recUpd, recFind, hk]
    · simp [recUpd, recFind, hk, ih]

theorem recFind_upd_other (m : RecMap) (k : Str) (v : TrafficRecord)
    (k2 : Str) (h : k2 ≠ k) :
    recFind (recUpd m k v) k2 = recFind m k2 := by
  induction m with
  | nil =>
    have hne : ¬ k = k2 := fun hh => h hh.symm
    simp [recUpd, recFind, hne]
  | cons e t ih =>
    obtain ⟨k3, v3⟩ := e
    by_cases h3 : k3 = k
    · have hne : ¬ k = k2 := fun hh => h hh.symm
      simp [recUpd, recFind, h3, hne]
    · by_cases h4 : k3 = k2
      · simp [recUpd, recFind, h3, h4, h]
      · simp [recUpd, recFind, h3, h4, ih]

theorem recUpd_WF (m : RecMap) (k : Str) (v : TrafficRecord)
    (hm : WFmap m) (hk : k = v.pyStr) : WFmap (recUpd m k v) := by
  induction m with
  | nil =>
    intro e he
    simp only [recUpd, List.mem_singleton] at he
    subst he
    exact hk
  | cons e2 t ih =>
    obtain ⟨k2, v2⟩ := e2
    have ht : WFmap t := fun e he => hm e (List.mem_cons_of_mem _ he)
    by_cases h2 : k2 = k
    · intro e he
      simp only [recUpd, if_pos h2] at he
      rcases List.mem_cons.mp he with rfl | he2
      · exact h2.trans hk
      · exact hm e (List.mem_cons_of_mem _ he2)
    · intro e he
      simp only [recUpd, if_neg h2] at he
      rcases List.mem_cons.mp he with rfl | he2
      · exact hm _ (List.mem_cons_self _ _)
      · exact ih ht e he2

theorem mem_recKeys_upd (m : RecMap) (k : Str) (v : TrafficRecord) (x : Str)
    (h : x ∈ recKeys (recUpd m k v)) : x ∈ recKeys m ∨ x = k := by
  induction m with
  | nil =>
    simp only [recUpd, recKeys, List.map_cons, List.map_nil,
      List.mem_singleton] at h
    exact Or.inr h
  | cons e t ih =>
    obtain ⟨k2, v2⟩ := e
    by_cases h2 : k2 = k
    · simp only [recUpd, if_pos h2, recKeys, List.map_cons,
        List.mem_cons] at h ⊢
      rcases h with rfl | h
      · exact Or.inl (Or.inl rfl)
      · exact Or.inl (Or.inr h)
    · simp only [recUpd, if_neg h2, recKeys, List.map_cons,
        List.mem_cons] at h ⊢
      rcases h with rfl | h
      · exact Or.inl (Or.inl rfl)
      · rcases ih h with h3 | h3
        · exact Or.inl (Or.inr h3)
        · exact Or.inr h3

theorem recUpd_keys_nodup (m : RecMap) (k : Str) (v : TrafficRecord)
    (h : (recKeys m).Nodup) : (recKeys (recUpd m k v)).Nodup := by
  induction m with
  | nil => simp [recUpd, recKeys]
  | cons e t ih =>
    obtain ⟨k2, v2⟩ := e
    simp only [recKeys, List.map_cons, List.nodup_cons] at h
    obtain ⟨hk2, ht⟩ := h
    by_cases h2 : k2 = k
    · simp only [recUpd, if_pos h2, recKeys, List.map_cons, List.nodup_cons]
      exact ⟨hk2, ht⟩
    · simp only [recUpd, if_neg h2, recKeys, List.map_cons, List.nodup_cons]
      refine ⟨?_, ih ht⟩
      intro hmem
      rcases mem_recKeys_upd t k v k2 hmem with h3 | h3
      · exact hk2 h3
      · exact h2 h3

theorem values_key_mem (m : RecMap) (hWF : WFmap m) (r : TrafficRecord)
    (hr : r ∈ m.map (fun e => e.2)) : r.pyStr ∈ recKeys m := by
  induction m with
  | nil => simp at hr
  | cons e t ih =>
    obtain ⟨k2, v2⟩ := e
    have ht : WFmap t := fun e he => hWF e (List.mem_cons_of_mem _ he)
    simp only [List.map_cons, List.mem_cons] at hr
    rcases hr with rfl | hr
    · have hk : k2 = r.pyStr := hWF (k2, r) (List.mem_cons_self _ _)
      simp only [recKeys, List.map_cons, List.mem_cons]
      exact Or.inl hk.symm
    · simp only [recKeys, List.map_cons, List.mem_cons]
      exact Or.inr (ih ht hr)

theorem values_find (m : RecMap) (hWF : WFmap m)
    (hnd : (recKeys m).Nodup) (r : TrafficRecord)
    (hr : r ∈ m.map (fun e => e.2)) : recFind m r.pyStr = some r := by
  induction m with
  | nil => simp at hr
  | cons e t ih =>
    obtain ⟨k2, v2⟩ := e
    have ht : WFmap t := fun e he => hWF e (List.mem_cons_of_mem _ he)
    simp only [recKeys, List.map_cons, List.nodup_cons] at hnd
    obtain ⟨hk2, htnd⟩ := hnd
    simp only [List.map_cons, List.mem_cons] at hr
    rcases hr with rfl | hr
    · have hk : k2 = r.pyStr := hWF (k2, r) (List.mem_cons_self _ _)
      simp [recFind, hk]
    · have hkey := values_key_mem t ht r hr
      have hne : k2 ≠ r.pyStr := fun hEq => hk2 (hEq ▸ hkey)
      simp [recFind, hne, ih ht htnd hr]

/-! ### Structured view of the batch: `(tuple, success-flag, value)` pairs -/

abbrev SPair := MetricTuple × Bool × Int

/-- The `(metric, value)` item carried by a structured pair. -/
def encPair (e : SPair) : Str × Int := (encMetric e.1 e.2.1, e.2.2)

/-- `record.success_count = value` / `record.failure_count = value`. -/
def setFlag (r : TrafficRecord) (flag : Bool) (v : Int) : TrafficRecord :=
  if flag then { r with success_count := v }
  else { r with failure_count := v }

theorem setFlag_pyStr (r : TrafficRecord) (flag : Bool) (v : Int) :
    (setFlag r flag v).pyStr = r.pyStr := by
  cases flag <;> rfl

/-- The pure effect of one well-formed `(metric, value)` item on the
record map: look the key up (default to the freshly parsed record), set the
success or failure count to the drained value, store it back under its
`str(record)` key. -/
def stepS (m : RecMap) (e : SPair) : RecMap :=
  recUpd m
    (setFlag ((recFind m (keyOf e.1)).getD (recOf e.1)) e.2.1 e.2.2).pyStr
    (setFlag ((recFind m (keyOf e.1)).getD (recOf e.1)) e.2.1 e.2.2)

theorem handleStep_encPair (m : RecMap) (e : SPair) (he : TupleOK e.1) :
    handleStep m (encPair e) = Except.ok (stepS m e) := by
  unfold handleStep encPair stepS
  rw [from_metric_encMetric e.1 e.2.1 he, is_success_encMetric e.1 e.2.1 he]
  rfl

theorem handlePairs_fold (m : RecMap) (pairs : List SPair)
    (hok : ∀ e ∈ pairs, TupleOK e.1) :
    handlePairs m (pairs.map encPair) = Except.ok (pairs.foldl stepS m) := by
  induction pairs generalizing m with
  | nil => rfl
  | cons e rest ih =>
    simp only [List.map_cons, handlePairs, List.foldl_cons]
    rw [handleStep_encPair m e (hok e (List.mem_cons_self _ _))]
    exact ih (stepS m e) (fun x hx => hok x (List.mem_cons_of_mem _ hx))

theorem encode_flatten (batch : List (List SPair)) :
    (batch.map (fun msg => msg.map encPair)).flatten =
      batch.flatten.map encPair := by
  induction batch with
  | nil => rfl
  | cons msg t ih =>
    simp only [List.map_cons, List.flatten_cons, List.map_append, ih]

/-! ### Last-write tracking for one map key -/

/-- The value of the *last* pair satisfying `q`, if any. -/
def lastMatch (q : SPair → Bool) : List SPair → Option Int
  | [] => none
  | e :: rest =>
    match lastMatch q rest with
    | some v => some v
    | none => if q e then some e.2.2 else none

theorem lastMatch_append (q : SPair → Bool) (ps qs : List SPair) :
    lastMatch q (ps ++ qs) =
      match lastMatch q qs with
      | some v => some v
      | none => lastMatch q ps := by
  induction ps with
  | nil =>
    simp only [List.nil_append]
    cases lastMatch q qs <;> rfl
  | cons a ps2 ih =>
    simp only [List.cons_append, lastMatch, List.append_eq, ih]
    cases lastMatch q qs <;> rfl

theorem lastMatch_concat (q : SPair → Bool) (ps : List SPair) (e : SPair) :
    lastMatch q (ps ++ [e]) =
      (if q e then some e.2.2 else lastMatch q ps) := by
  rw [lastMatch_append]
  have h1 : lastMatch q [e] = if q e then some e.2.2 else none := rfl
  rw [h1]
  by_cases hq : q e = true
  · simp [hq]
  · simp [hq]

/-- Pairs that hit key `K` as a success metric. -/
def qSucc (K : Str) (e : SPair) : Bool := (keyOf e.1 == K) && e.2.1

/-- Pairs that hit key `K` as a failure metric. -/
def qFail (K : Str) (e : SPair) : Bool := (keyOf e.1 == K) && !e.2.1

def lastSucc (K : Str) (pairs : List SPair) : Option Int :=
  lastMatch (qSucc K) pairs

def lastFail (K : Str) (pairs : List SPair) : Option Int :=
  lastMatch (qFail K) pairs

/-- The row whose counts hold the given last success/failure values for the
tuple (an absent value reads as the constructor default 0). -/
def recAt (t : MetricTuple) (so fo : Option Int) : TrafficRecord :=
  ⟨t.source, t.destination, t.port, t.protocol, so.getD 0, fo.getD 0,
    t.connected⟩

/-- Folding the whole flattened batch over the initially empty map. -/
def foldRecords (pairs : List SPair) : RecMap := pairs.foldl stepS []

theorem foldRecords_concat (ps : List SPair) (e : SPair) :
    foldRecords (ps ++ [e]) = stepS (foldRecords ps) e := by
  simp [foldRecords, List.foldl_append]

theorem recAt_set_success (t : MetricTuple) (so fo : Option Int) (v : Int) :
    ({ recAt t so fo with success_count := v } : TrafficRecord) =
      recAt t (some v) fo := rfl

theorem recAt_set_failure (t : MetricTuple) (so fo : Option Int) (v : Int) :
    ({ recAt t so fo with failure_count := v } : TrafficRecord) =
      recAt t so (some v) := rfl

/-- Processing the whole batch from the empty map: the map is well-formed,
its keys are distinct, and the entry of any well-formed tuple's key holds
the tuple's fields with the *last* assigned success and failure values. -/
theorem foldRecords_spec (pairs : List SPair)
    (hok : ∀ e ∈ pairs, TupleOK e.1) :
    WFmap (foldRecords pairs) ∧ (recKeys (foldRecords pairs)).Nodup ∧
      ∀ t, TupleOK t →
        recFind (foldRecords pairs) (keyOf t) =
          (if lastSucc (keyOf t) pairs = none ∧ lastFail (keyOf t) pairs = none
           then none
           else some (recAt t (lastSucc (keyOf t) pairs)
             (lastFail (keyOf t) pairs))) := by
  induction pairs using List.reverseRecOn with
  | nil =>
    refine ⟨fun e he => absurd he (List.not_mem_nil e), by
      simp [foldRecords, recKeys], ?_⟩
    intro t ht
    simp [foldRecords, recFind, lastSucc, lastFail, lastMatch]
  | append_singleton ps e ih =>
    obtain ⟨te, flag, v⟩ := e
    have hps : ∀ x ∈ ps, TupleOK x.1 :=
      fun x hx => hok x (List.mem_append_left _ hx)
    have he : TupleOK te :=
      hok (te, flag, v) (List.mem_append_right _ (List.mem_singleton.mpr rfl))
    obtain ⟨hWF, hnd, hfind⟩ := ih hps
    have hr1 : ∀ K : Str,
        ((recFind (foldRecords ps) K).getD (recOf te)).pyStr =
          (if recFind (foldRecords ps) K = none then (recOf te).pyStr else
            ((recFind (foldRecords ps) K).getD (recOf te)).pyStr) := by
      intro K
      cases recFind (foldRecords ps) K <;> simp
    have hupdkey :
        (setFlag ((recFind (foldRecords ps) (keyOf te)).getD (recOf te))
          flag v).pyStr = keyOf te := by
      rw [setFlag_pyStr]
      cases hf : recFind (foldRecords ps) (keyOf te) with
      | none => rfl
      | some r =>
        have h2 : keyOf te = r.pyStr :=
          hWF (keyOf te, r) (recFind_mem _ _ r hf)
        simp [h2.symm]
    have hstep : foldRecords (ps ++ [(te, flag, v)]) =
        recUpd (foldRecords ps) (keyOf te)
          (setFlag ((recFind (foldRecords ps) (keyOf te)).getD (recOf te))
            flag v) := by
      rw [foldRecords_concat]
      unfold stepS
      rw [hupdkey]
    refine ⟨?_, ?_, ?_⟩
    · rw [hstep]
      exact recUpd_WF _ _ _ hWF hupdkey.symm
    · rw [hstep]
      exact recUpd_keys_nodup _ _ _ hnd
    · intro t ht
      rw [hstep]
      by_cases hK : keyOf t = keyOf te
      · have hrec : recOf te = recOf t := keyOf_inj te t he ht hK.symm
        have hbeq : (keyOf te == keyOf t) = true := by
          simp [hK.symm]
        have hS : lastSucc (keyOf t) (ps ++ [(te, flag, v)]) =
            (if flag then some v else lastSucc (keyOf t) ps) := by
          unfold lastSucc
          rw [lastMatch_concat]
          cases flag <;> simp [qSucc, hbeq]
        have hF : lastFail (keyOf t) (ps ++ [(te, flag, v)]) =
            (if flag then lastFail (keyOf t) ps else some v) := by
          unfold lastFail
          rw [lastMatch_concat]
          cases flag <;> simp [qFail, hbeq]
        rw [← hK, hrec]
        have hr1v : (recFind (foldRecords ps) (keyOf t)).getD (recOf t) =
            recAt t (lastSucc (keyOf t) ps) (lastFail (keyOf t) ps) := by
          rw [hfind t ht]
          by_cases hc : lastSucc (keyOf t) ps = none ∧
              lastFail (keyOf t) ps = none
          · obtain ⟨h1, h2⟩ := hc
            simp [h1, h2, recAt, recOf]
          · simp [hc]
        rw [hr1v, recFind_upd_self, hS, hF]
        cases flag
        · have hset : setFlag (recAt t (lastSucc (keyOf t) ps)
              (lastFail (keyOf t) ps)) false v =
              recAt t (lastSucc (keyOf t) ps) (some v) := rfl
          rw [hset]
          simp
        · have hset : setFlag (recAt t (lastSucc (keyOf t) ps)
              (lastFail (keyOf t) ps)) true v =
              recAt t (some v) (lastFail (keyOf t) ps) := rfl
          rw [hset]
          simp
      · have hne : keyOf te ≠ keyOf t := fun hh => hK hh.symm
        have hb : (keyOf te == keyOf t) = false := beq_eq_false_iff_ne.mpr hne
        have hS2 : lastSucc (keyOf t) (ps ++ [(te, flag, v)]) =
            lastSucc (keyOf t) ps := by
          unfold lastSucc
          rw [lastMatch_concat]
          simp [qSucc, hb]
        have hF2 : lastFail (keyOf t) (ps ++ [(te, flag, v)]) =
            lastFail (keyOf t) ps := by
          unfold lastFail
          rw [lastMatch_concat]
          simp [qFail, hb]
        rw [recFind_upd_other _ _ _ _ hK, hS2, hF2]
        exact hfind t ht

/-! ### Totals per key -/

/-- The total drained value over the pairs satisfying `q`. -/
def totalVals (q : SPair → Bool) (pairs : List SPair) : Int :=
  ((pairs.filter q).map (fun e => e.2.2)).sum

theorem lastMatch_none_of_filter_nil (q : SPair → Bool) (pairs : List SPair)
    (h : pairs.filter q = []) : lastMatch q pairs = none := by
  induction pairs with
  | nil => rfl
  | cons e rest ih =>
    by_cases hq : q e = true
    · simp [List.filter_cons, hq] at h
    · simp only [List.filter_cons, hq, if_false, Bool.false_eq_true] at h
      simp [lastMatch, ih h, hq]

theorem lastMatch_getD_of_le_one (q : SPair → Bool) (pairs : List SPair)
    (h : (pairs.filter q).length ≤ 1) :
    (lastMatch q pairs).getD 0 = totalVals q pairs := by
  induction pairs with
  | nil => rfl
  | cons e rest ih =>
    by_cases hq : q e = true
    · have h2 : (rest.filter q).length = 0 := by
        simp only [List.filter_cons, hq, if_true, List.length_cons] at h
        omega
      have hrest : rest.filter q = [] := List.length_eq_zero.mp h2
      have hnone := lastMatch_none_of_filter_nil q rest hrest
      simp [lastMatch, hnone, hq, totalVals, List.filter_cons, hrest]
    · have h2 : (rest.filter q).length ≤ 1 := by
        simpa only [List.filter_cons, hq, if_false, Bool.false_eq_true] using h
      have hskip : lastMatch q (e :: rest) = lastMatch q rest := by
        simp only [lastMatch]
        cases lastMatch q rest <;> simp [hq]
      rw [hskip, ih h2]
      simp [totalVals, List.filter_cons, hq]

theorem recKeys_eq_values_pyStr (m : RecMap) (hWF : WFmap m) :
    recKeys m = (m.map (fun e => e.2)).map TrafficRecord.pyStr := by
  induction m with
  | nil => rfl
  | cons e t ih =>
    obtain ⟨k, r⟩ := e
    have hk : k = r.pyStr := hWF (k, r) (List.mem_cons_self _ _)
    have ht : WFmap t := fun x hx => hWF x (List.mem_cons_of_mem _ hx)
    simp only [recKeys, List.map_cons] at ih ⊢
    rw [hk, ih ht]

/-- C9 (amended): for a batch of messages whose metrics carry well-formed
fields, the rows passed to the record store hold at most one record per
(source, destination, port, protocol, connected) tuple — records with
identical tuples are merged into one row — but each merged row's
`success_count` (resp. `failure_count`) is the value of the batch's *last*
success (failure) metric for that tuple, because the handler assigns
`record.success_count = value` instead of accumulating; the counts equal
the claimed totals exactly when the batch carries at most one success and
at most one failure entry for the tuple. -/
theorem C9_batch_merge_amended (batch : List (List SPair))
    (hok : ∀ msg ∈ batch, ∀ e ∈ msg, TupleOK e.1) :
    ∃ records,
      handle (batch.map (fun msg => msg.map encPair)) = Except.ok records ∧
      (records.map TrafficRecord.pyStr).Nodup ∧
      (∀ t, TupleOK t → ∀ r ∈ records, r.pyStr = keyOf t →
        r = recAt t (lastSucc (keyOf t) batch.flatten)
          (lastFail (keyOf t) batch.flatten)) ∧
      (∀ t, TupleOK t → ∀ r ∈ records, r.pyStr = keyOf t →
        ((batch.flatten.filter (qSucc (keyOf t))).length ≤ 1 →
          r.success_count = totalVals (qSucc (keyOf t)) batch.flatten) ∧
        ((batch.flatten.filter (qFail (keyOf t))).length ≤ 1 →
          r.failure_count = totalVals (qFail (keyOf t)) batch.flatten)) := by
  have hokf : ∀ e ∈ batch.flatten, TupleOK e.1 := by
    intro e he
    rw [List.mem_flatten] at he
    obtain ⟨msg, hm, he2⟩ := he
    exact hok msg hm e he2
  obtain ⟨hWF, hnd, hfind⟩ := foldRecords_spec batch.flatten hokf
  have hchar : ∀ t, TupleOK t →
      ∀ r ∈ (foldRecords batch.flatten).map (fun e => e.2),
        r.pyStr = keyOf t →
          r = recAt t (lastSucc (keyOf t) batch.flatten)
            (lastFail (keyOf t) batch.flatten) := by
    intro t ht r hr hkey
    have hf := values_find _ hWF hnd r hr
    rw [hkey, hfind t ht] at hf
    by_cases hc : lastSucc (keyOf t) batch.flatten = none ∧
        lastFail (keyOf t) batch.flatten = none
    · rw [if_pos hc] at hf
      exact absurd hf (by simp)
    · rw [if_neg hc] at hf
      exact (Option.some.inj hf).symm
  refine ⟨(foldRecords batch.flatten).map (fun e => e.2), ?_, ?_, hchar, ?_⟩
  · unfold handle
    rw [encode_flatten, handlePairs_fold [] batch.flatten hokf]
    rfl
  · rw [← recKeys_eq_values_pyStr _ hWF]
    exact hnd
  · intro t ht r hr hkey
    constructor
    · intro hlen
      rw [hchar t ht r hr hkey]
      exact lastMatch_getD_of_le_one _ _ hlen
    · intro hlen
      rw [hchar t ht r hr hkey]
      exact lastMatch_getD_of_le_one _ _ hlen

/-- A second tuple, unrelated to `tup0`. -/
def tupB : MetricTuple :=
  ⟨("3.3.3.3".toList), ("4.4.4.4".toList), ("22".toList), ("UDP".toList),
    false⟩

/-- A batch whose two messages together carry one success and one failure
entry for `tup0`. -/
def batchW : List (List SPair) :=
  [[(tup0, true, 3)], [(tupB, false, 4), (tup0, false, 5)]]

/-- Witness for C9: the amended statement applied to a concrete two-message
batch with well-formed fields and one success / one failure entry per tuple. -/
theorem C9_witness :
    (∀ msg ∈ batchW, ∀ e ∈ msg, TupleOK e.1) ∧
    ∃ records,
      handle (batchW.map (fun msg => msg.map encPair)) = Except.ok records ∧
      (records.map TrafficRecord.pyStr).Nodup ∧
      ∀ r ∈ records, r.pyStr = keyOf tup0 →
        r.success_count = totalVals (qSucc (keyOf tup0)) batchW.flatten ∧
        r.failure_count = totalVals (qFail (keyOf tup0)) batchW.flatten := by
  have hok : ∀ msg ∈ batchW, ∀ e ∈ msg, TupleOK e.1 := by decide
  have htup : TupleOK tup0 := by decide
  obtain ⟨records, h1, h2, _h3, h4⟩ := C9_batch_merge_amended batchW hok
  refine ⟨hok, records, h1, h2, ?_⟩
  intro r hr hkey
  exact ⟨(h4 tup0 htup r hr hkey).1 (by decide),
    (h4 tup0 htup r hr hkey).2 (by decide)⟩

end Axon
